import Mathlib

/-!
# Verification of the color-extractor batch frame-extraction pipeline

This file is a shallow embedding of the batch frame-extraction and
demultiplexing pipeline of the video color-extractor service:

* `parseJpegFrames`   — the byte-level JPEG demultiplexer
  (`FfmpegUtil.parseJpegFrames`): scans a concatenated byte buffer for
  SOI markers `0xFF 0xD8` and splits it into frame buffers.
* `extractMultipleFrames` — the batch decode entry
  (`FfmpegUtil.extractMultipleFrames`): single-timestamp bypass, the
  no-frames error, and the positional timestamp→frame map.
* `selectTermOfMs` / `selectExpression` / `vfFilterArg` — the decoder
  frame-selection expression built for the multi-timestamp path.
* `reconcileFrames` / `assembleResults` / `extractColorsFromFrames` —
  the repository-level batch color extraction
  (`VideoProcessorRepository.extractColorsFromFrames`), with the external
  per-frame palette computation abstracted as a function parameter.
* `extractDominantColor` / `rgbToHex` — the palette-selection policy and
  hex rendering (`ColorUtil`).

External effects (process spawning, the ffmpeg decoder itself, the
node-vibrant palette computation, wall-clock timing) are abstracted as
explicit function parameters; everything else follows the TypeScript
source line by line.
-/

/-! ## Definitions: the embedded program -/

/-- A byte of the decoder's output stream, as a natural number. -/
abbrev Byte := Nat

/-- One decoded frame: a byte buffer. -/
abbrev FrameBuf := List Byte

/-- `buf[i] == 0xFF && buf[i+1] == 0xD8`: the JPEG SOI marker test the
demultiplexer's scan loop performs at index `i`. -/
def soiAt (buf : List Byte) (i : Nat) : Bool :=
  (buf.get? i == some 0xff) && (buf.get? (i + 1) == some 0xd8)

/-- The indices the scan loop visits (`for i = 0; i < buffer.length - 1`)
at which the SOI marker test succeeds, in increasing order. -/
def soiPositions (buf : List Byte) : List Nat :=
  (List.range (buf.length - 1)).filter (soiAt buf)

/-- One iteration of the scan loop at a marker position `i`: push
`buffer.subarray(currentFrameStart, i)` when
`i > currentFrameStart && currentFrameStart > 0`, then set
`currentFrameStart = i`.  The state is
`(currentFrameStart, frames-so-far)`. -/
def scanStep (buf : List Byte) (st : Nat × List FrameBuf) (i : Nat) :
    Nat × List FrameBuf :=
  (i, if st.1 < i && 0 < st.1
      then st.2 ++ [(buf.drop st.1).take (i - st.1)]
      else st.2)

/-- `parseJpegFrames` just before its final
`frames.filter((f) => f.length > 0)`: run the scan loop over all marker
positions, then push the trailing `buffer.subarray(currentFrameStart)`
when `currentFrameStart < buffer.length`. -/
def parseJpegFramesPre (buf : List Byte) : List FrameBuf :=
  let st := (soiPositions buf).foldl (scanStep buf) (0, [])
  if st.1 < buf.length then st.2 ++ [buf.drop st.1] else st.2

/-- `FfmpegUtil.parseJpegFrames`: split one concatenated byte buffer into
individual frame buffers at SOI markers, discarding empty frames. -/
def parseJpegFrames (buf : List Byte) : List FrameBuf :=
  (parseJpegFramesPre buf).filter (fun f => 0 < f.length)

/-- A frame buffer that begins with the 2-byte SOI marker `0xFF 0xD8`. -/
def startsWithSOI (f : FrameBuf) : Prop :=
  f.get? 0 = some 0xff ∧ f.get? 1 = some 0xd8

instance (f : FrameBuf) : Decidable (startsWithSOI f) := by
  unfold startsWithSOI; infer_instance

/-- JavaScript `Map.prototype.set` on an insertion-ordered association
list. -/
def jsMapSet {α : Type} (m : List (Nat × α)) (k : Nat) (v : α) : List (Nat × α) :=
  if m.any (fun p => p.1 == k)
  then m.map (fun p => if p.1 == k then (k, v) else p)
  else m ++ [(k, v)]

/-- The reconciliation loop of `extractMultipleFrames`:
`for (i = 0; i < timestampsMs.length; i++) if (i < frames.length)
frameMap.set(timestampsMs[i], frames[i])` — i.e. a `Map.set` per
positionally matched pair. -/
def reconcileFrames {α : Type} (tss : List Nat) (frames : List α) : List (Nat × α) :=
  (tss.zip frames).foldl (fun m p => jsMapSet m p.1 p.2) []

/-- Insert one entry into a list already sorted by ascending timestamp,
after all entries with a smaller-or-equal timestamp (the order the
JavaScript comparator `(a, b) => a.timestamp - b.timestamp` produces). -/
def insertByTs {α : Type} (p : Nat × α) : List (Nat × α) → List (Nat × α)
  | [] => [p]
  | q :: rest => if p.1 < q.1 then p :: q :: rest else q :: insertByTs p rest

/-- `results.sort((a, b) => a.timestamp - b.timestamp)`: stable ascending
sort by timestamp. -/
def sortByTs {α : Type} (l : List (Nat × α)) : List (Nat × α) :=
  l.foldl (fun acc p => insertByTs p acc) []

/-- `FfmpegUtil.extractFrame`, the dedicated single-frame path: one
decoder invocation for one timestamp.  The external decoder is the
function parameter `singleDecode`; the second component counts decoder
invocations. -/
def extractFrame (singleDecode : Nat → FrameBuf) (ts : Nat) : FrameBuf × Nat :=
  (singleDecode ts, 1)

/-- `FfmpegUtil.extractMultipleFrames`: empty-timestamp error, the
single-timestamp bypass via `extractFrame`, and otherwise one batch
decoder invocation whose raw output `stream` is demultiplexed and
positionally reconciled.  Returns the timestamp→frame map together with
the number of decoder invocations performed. -/
def extractMultipleFrames (singleDecode : Nat → FrameBuf) (stream : List Byte) :
    List Nat → Except String (List (Nat × FrameBuf) × Nat)
  | [] => Except.error "No timestamps provided"
  | [ts] =>
      let fr := extractFrame singleDecode ts
      Except.ok ([(ts, fr.1)], fr.2)
  | ts1 :: ts2 :: rest =>
      let frames := parseJpegFrames stream
      if frames.length = 0 then Except.error "FFmpeg returned no frames"
      else Except.ok (reconcileFrames (ts1 :: ts2 :: rest) frames, 1)

/-- The per-frame color step and final sort of
`VideoProcessorRepository.extractColorsFromFrames`, applied to an
already-built timestamp→frame map: color every map entry (the external
palette library is the function parameter `color`), keep entry order
(`Promise.all` preserves it), then sort by timestamp. -/
def colorAndSort {α : Type} (color : α → String) (m : List (Nat × α)) :
    List (Nat × String) :=
  sortByTs (m.map (fun p => (p.1, color p.2)))

/-- The batch result as a function of the requested timestamps and the
demultiplexed frame list: positional reconciliation, coloring, sort. -/
def assembleResults {α : Type} (color : α → String) (tss : List Nat)
    (frames : List α) : List (Nat × String) :=
  colorAndSort color (reconcileFrames tss frames)

/-- `VideoProcessorRepository.extractColorsFromFrames`: batch decode via
`extractMultipleFrames`, then color extraction per map entry, then the
timestamp sort.  Each result entry is `(timestamp, hex color)`. -/
def extractColorsFromFrames (color : FrameBuf → String)
    (singleDecode : Nat → FrameBuf) (stream : List Byte) (tss : List Nat) :
    Except String (List (Nat × String)) :=
  match extractMultipleFrames singleDecode stream tss with
  | Except.error e => Except.error e
  | Except.ok (frames, _) => Except.ok (colorAndSort color frames)

/-- JavaScript `Math.round`: round half toward positive infinity. -/
def jsRound (q : ℚ) : ℤ := ⌊q + 1 / 2⌋

/-- One lowercase hexadecimal digit, as `Number.prototype.toString(16)`
renders it. -/
def hexDigit (n : Nat) : Char :=
  if n < 10 then Char.ofNat (48 + n) else Char.ofNat (87 + n)

/-- Hex digit expansion of a natural number, most significant first
(fuel-structured: `fuel ≥ 1 + log16 n` suffices, and `n + 1` always is). -/
def natHexAux : Nat → Nat → List Char
  | 0, _ => []
  | fuel + 1, n =>
      if n < 16 then [hexDigit n] else natHexAux fuel (n / 16) ++ [hexDigit (n % 16)]

/-- `z.toString(16)` for an integer `z` (negative values render with a
leading minus sign, as in JavaScript). -/
def intToHexStr (z : Int) : String :=
  if z < 0 then "-" ++ String.mk (natHexAux (z.natAbs + 1) z.natAbs)
  else String.mk (natHexAux (z.toNat + 1) z.toNat)

/-- The zero-padding step of `ColorUtil.rgbToHex`:
`hex.length === 1 ? '0' + hex : hex`. -/
def toHexPad (z : Int) : String :=
  let hx := intToHexStr z
  if hx.length = 1 then "0" ++ hx else hx

/-- The inner `toHex` arrow function of `ColorUtil.rgbToHex`:
`Math.round(value).toString(16)`, zero-padded to two digits. -/
def toHexChannel (v : ℚ) : String := toHexPad (jsRound v)

/-- `String.prototype.toUpperCase` on the ASCII strings this code
produces. -/
def jsToUpper (s : String) : String := String.mk (s.data.map Char.toUpper)

/-- `ColorUtil.rgbToHex`:
``` `#${toHex(r)}${toHex(g)}${toHex(b)}`.toUpperCase() ```. -/
def rgbToHex (r g b : ℚ) : String :=
  jsToUpper ("#" ++ toHexChannel r ++ toHexChannel g ++ toHexChannel b)

/-- One node-vibrant swatch: an RGB triple plus its pixel population. -/
structure Swatch where
  red : ℚ
  green : ℚ
  blue : ℚ
  population : Nat

/-- A node-vibrant palette: six optional categorized swatches. -/
structure Palette where
  Vibrant : Option Swatch
  Muted : Option Swatch
  DarkVibrant : Option Swatch
  DarkMuted : Option Swatch
  LightVibrant : Option Swatch
  LightMuted : Option Swatch

/-- JavaScript `||` on object-or-undefined values: the left operand when
present, the right one otherwise. -/
def jsOr {α : Type} (a b : Option α) : Option α :=
  match a with
  | some x => some x
  | none => b

/-- `ColorUtil.extractDominantColor`, applied to the palette the external
library produced:
`palette.Vibrant || palette.Muted || palette.DarkVibrant ||
palette.DarkMuted || palette.LightVibrant || palette.LightMuted`, then
hex-render the selected swatch, or throw when none is present. -/
def extractDominantColor (p : Palette) : Except String String :=
  let vibrantSwatch :=
    jsOr p.Vibrant (jsOr p.Muted (jsOr p.DarkVibrant
      (jsOr p.DarkMuted (jsOr p.LightVibrant p.LightMuted))))
  match vibrantSwatch with
  | some sw => Except.ok (rgbToHex sw.red sw.green sw.blue)
  | none => Except.error "Failed to extract color: No color swatch found in palette"

/-- The spec's selection rule, stated independently: the six categories in
the fixed priority order, first present one wins. -/
def firstPresentSwatch (p : Palette) : Option Swatch :=
  ([p.Vibrant, p.Muted, p.DarkVibrant, p.DarkMuted,
    p.LightVibrant, p.LightMuted]).findSome? id

/-- The 16 uppercase hexadecimal digit characters. -/
def upperHexDigits : List Char :=
  ['0', '1', '2', '3', '4', '5', '6', '7', '8', '9', 'A', 'B', 'C', 'D', 'E', 'F']

/-- `#` followed by exactly six uppercase hexadecimal digits. -/
def validHexString (s : String) : Prop :=
  s.data.length = 7 ∧ s.data.head? = some '#' ∧ ∀ c ∈ s.data.drop 1, c ∈ upperHexDigits

/-- Three decimal digits with leading zeros (the fractional part of a
`toFixed(3)` rendering). -/
def pad3 (m : Nat) : String :=
  if m < 10 then "00" ++ toString m
  else if m < 100 then "0" ++ toString m
  else toString m

/-- `x.toFixed(3)` for the exact value `k/1000`: every window bound the
code renders is such a value (`ts ± 0.01` with `ts` a whole number of
milliseconds over 1000), so the double-precision rendering agrees with
the exact decimal expansion. -/
def toFixed3 (k : Int) : String :=
  let a := k.natAbs
  (if k < 0 then "-" else "") ++ toString (a / 1000) ++ "." ++ pad3 (a % 1000)

/-- One range test of the `select` expression, for the timestamp `ms`
(milliseconds): `(gte(t\,LO)*lte(t\,HI))` with `LO = ms/1000 − 0.01` and
`HI = ms/1000 + 0.01`, both rendered with `toFixed(3)`. -/
def selectTermOfMs (ms : Nat) : String :=
  "(gte(t\\," ++ toFixed3 ((ms : Int) - 10) ++ ")*lte(t\\," ++
    toFixed3 ((ms : Int) + 10) ++ "))"

/-- `timestampsSeconds.map(...).join('+')`: the `'+'`-joined disjunction
of per-timestamp range tests, in input order. -/
def selectExpression (tss : List Nat) : String :=
  String.intercalate "+" (tss.map selectTermOfMs)

/-- The fixed scale filter of the batch path: `scale=64:-1` — a constant
64-pixel target width, aspect ratio preserved. -/
def scaleFilter : String := "scale=64:-1"

/-- The full `-vf` argument `select='...'`,`scale=64:-1` the batch path
hands the decoder. -/
def vfFilterArg (tss : List Nat) : String :=
  "select=\x27" ++ selectExpression tss ++ "\x27," ++ scaleFilter

/-- Modelled from the spec's wording, for comparison: the window bound
`ts/1000 ± 0.01` as an exact rational, rendered with 3 decimal places. -/
def ratToFixed3 (q : ℚ) : String := toFixed3 (round (q * 1000))

/-- Modelled from the spec's wording, for comparison: one range test
`(gte(t\,ts/1000 − 0.01)*lte(t\,ts/1000 + 0.01))` with rational bounds. -/
def specRangeTest (ms : Nat) : String :=
  "(gte(t\\," ++ ratToFixed3 ((ms : ℚ) / 1000 - 1 / 100) ++ ")*lte(t\\," ++
    ratToFixed3 ((ms : ℚ) / 1000 + 1 / 100) ++ "))"

/-- Modelled from the spec's wording: the `'+'`-joined disjunction of the
spec's range tests, in input order. -/
def specSelectDisjunction (tss : List Nat) : String :=
  String.intercalate "+" (tss.map specRangeTest)

/-- A concrete per-frame color function: render the frame's third byte. -/
def exColor : FrameBuf → String := fun f => toString (f.getD 2 0)

/-- A concrete single-frame decoder stub. -/
def exDecode : Nat → FrameBuf := fun _ => [0xff, 0xd8, 0x00]

/-- Four concatenated well-formed JPEG buffers (the demultiplexer returns
three frames from it, dropping the first buffer). -/
def exStream3 : List Byte :=
  [0xff, 0xd8, 0x00, 0xff, 0xd8, 0x01, 0xff, 0xd8, 0x02, 0xff, 0xd8, 0x03]

/-- Three concatenated well-formed JPEG buffers (the demultiplexer
returns two frames from it). -/
def exStream2 : List Byte :=
  [0xff, 0xd8, 0x01, 0xff, 0xd8, 0x02, 0xff, 0xd8, 0x03]

/-! ## Theorems -/

/-- The scan loop's final `currentFrameStart` is the last marker position
visited (or the initial value when there is none). -/
theorem scan_foldl_fst (buf : List Byte) (ps : List Nat) (st : Nat × List FrameBuf) :
    (ps.foldl (scanStep buf) st).1 = ps.getLast?.getD st.1 := by
  induction ps generalizing st with
  | nil => rfl
  | cons p ps ih =>
      rw [List.foldl_cons, ih]
      cases ps with
      | nil => rfl
      | cons q qs => simp [List.getLast?]

/-- Every SOI position is a legal two-byte read: `i + 1 < buf.length`. -/
theorem soiPositions_lt (buf : List Byte) {i : Nat} (h : i ∈ soiPositions buf) :
    i + 1 < buf.length := by
  have hmem := List.of_mem_filter h
  have : soiAt buf i := hmem
  unfold soiAt at this
  have h2 : buf.get? (i + 1) = some 0xd8 := by
    rcases Bool.and_eq_true_iff.mp this with ⟨_, hb⟩
    exact beq_iff_eq.mp hb
  exact List.get?_eq_some.mp h2 |>.fst

/-- Membership in `soiPositions` is exactly the marker test. -/
theorem mem_soiPositions (buf : List Byte) (i : Nat) :
    i ∈ soiPositions buf ↔ soiAt buf i := by
  constructor
  · intro h; exact List.of_mem_filter h
  · intro h
    have hlt : i + 1 < buf.length := by
      unfold soiAt at h
      rcases Bool.and_eq_true_iff.mp h with ⟨_, hb⟩
      exact List.get?_eq_some.mp (beq_iff_eq.mp hb) |>.fst
    exact List.mem_filter.mpr ⟨List.mem_range.mpr (by omega), h⟩

/-- Unfolding of the marker test into its two byte reads. -/
theorem soiAt_iff (buf : List Byte) (i : Nat) :
    soiAt buf i ↔ buf.get? i = some 0xff ∧ buf.get? (i + 1) = some 0xd8 := by
  unfold soiAt
  rw [Bool.and_eq_true_iff, beq_iff_eq, beq_iff_eq]

/-- Two SOI markers can never sit at adjacent indices: the byte at `i + 1`
would have to be both `0xD8` and `0xFF`. -/
theorem soiAt_not_adjacent (buf : List Byte) (i : Nat)
    (h1 : soiAt buf i) (h2 : soiAt buf (i + 1)) : False := by
  have hd8 := ((soiAt_iff buf i).mp h1).2
  have hff := ((soiAt_iff buf (i + 1)).mp h2).1
  rw [hd8] at hff
  simp at hff

/-- Scan-loop invariant: if every position handed to the loop is a legal
read index, every frame the loop pushes is non-empty. -/
theorem scan_foldl_ne_nil (buf : List Byte) (ps : List Nat) :
    ∀ (st : Nat × List FrameBuf),
      (∀ p ∈ ps, p + 1 < buf.length) →
      (∀ f ∈ st.2, f ≠ []) →
      ∀ f ∈ (ps.foldl (scanStep buf) st).2, f ≠ [] := by
  induction ps with
  | nil => exact fun st _ hinv => hinv
  | cons p ps ih =>
      intro st hps hinv
      refine ih _ (fun q hq => hps q (List.mem_cons_of_mem _ hq)) ?_
      intro f hf
      unfold scanStep at hf
      by_cases hc : (st.1 < p && 0 < st.1) = true
      · rw [if_pos hc] at hf
        rcases List.mem_append.mp hf with h | h
        · exact hinv f h
        · have hfe : f = (buf.drop st.1).take (p - st.1) := List.mem_singleton.mp h
          rcases Bool.and_eq_true_iff.mp hc with ⟨hlt, _⟩
          have hlt' : st.1 < p := by simpa using hlt
          have hp : p + 1 < buf.length := hps p (List.mem_cons_self _ _)
          subst hfe
          intro hnil
          have hlen := congrArg List.length hnil
          simp [List.length_take, List.length_drop] at hlen
          omega
      · rw [if_neg hc] at hf
        exact hinv f hf

/-- Scan-loop invariant: over genuine marker positions, `currentFrameStart`
is always `0` or a marker position, and every pushed frame starts with the
SOI marker. -/
theorem scan_foldl_soi (buf : List Byte) (ps : List Nat) :
    ∀ (st : Nat × List FrameBuf),
      (∀ p ∈ ps, soiAt buf p) →
      (st.1 = 0 ∨ soiAt buf st.1) →
      (∀ f ∈ st.2, startsWithSOI f) →
      ((ps.foldl (scanStep buf) st).1 = 0 ∨ soiAt buf (ps.foldl (scanStep buf) st).1) ∧
      ∀ f ∈ (ps.foldl (scanStep buf) st).2, startsWithSOI f := by
  induction ps with
  | nil => exact fun st _ hst hinv => ⟨hst, hinv⟩
  | cons p ps ih =>
      intro st hps hst hinv
      have hp : soiAt buf p := hps p (List.mem_cons_self _ _)
      refine ih _ (fun q hq => hps q (List.mem_cons_of_mem _ hq)) (Or.inr hp) ?_
      intro f hf
      unfold scanStep at hf
      by_cases hc : (st.1 < p && 0 < st.1) = true
      · rw [if_pos hc] at hf
        rcases List.mem_append.mp hf with h | h
        · exact hinv f h
        · have hfe : f = (buf.drop st.1).take (p - st.1) := List.mem_singleton.mp h
          rcases Bool.and_eq_true_iff.mp hc with ⟨hlt, hpos⟩
          have hlt' : st.1 < p := by simpa using hlt
          have hpos' : 0 < st.1 := by simpa using hpos
          have hsoi : soiAt buf st.1 := hst.resolve_left (by omega)
          have hgap : st.1 + 2 ≤ p := by
            rcases Nat.lt_or_ge p (st.1 + 2) with hlt2 | hge
            · have hpe : p = st.1 + 1 := by omega
              rw [hpe] at hp
              exact absurd hp (fun h => soiAt_not_adjacent buf st.1 hsoi h)
            · exact hge
          rcases (soiAt_iff buf st.1).mp hsoi with ⟨hff, hd8⟩
          subst hfe
          constructor
          · rw [List.get?_take (by omega), List.get?_drop]
            simpa using hff
          · rw [List.get?_take (by omega), List.get?_drop]
            simpa using hd8
      · rw [if_neg hc] at hf
        exact hinv f hf

/-- After the scan loop, `currentFrameStart` still points inside a
non-empty buffer, so the trailing `subarray(currentFrameStart)` push
always happens and is non-empty. -/
theorem scan_final_lt (buf : List Byte) (h : buf ≠ []) :
    ((soiPositions buf).foldl (scanStep buf) (0, [])).1 < buf.length := by
  rw [scan_foldl_fst]
  cases hl : (soiPositions buf).getLast? with
  | none =>
      simpa [Option.getD] using List.length_pos.mpr h
  | some p =>
      have hp : p ∈ soiPositions buf := List.mem_of_mem_getLast? hl
      have := soiPositions_lt buf hp
      simpa [Option.getD] using by omega

/-- Every frame `parseJpegFrames` assembles — before the final empty-frame
filter — is non-empty. -/
theorem parseJpegFramesPre_ne_nil (buf : List Byte) :
    ∀ f ∈ parseJpegFramesPre buf, f ≠ [] := by
  intro f hf
  unfold parseJpegFramesPre at hf
  by_cases hb : buf = []
  · subst hb
    simp [soiPositions, scanStep] at hf
  · rw [if_pos (scan_final_lt buf hb)] at hf
    rcases List.mem_append.mp hf with h | h
    · exact scan_foldl_ne_nil buf (soiPositions buf) (0, [])
        (fun p hp => soiPositions_lt buf hp) (by intro f hf; simp at hf) f h
    · have hfe : f = buf.drop ((soiPositions buf).foldl (scanStep buf) (0, [])).1 :=
        List.mem_singleton.mp h
      subst hfe
      intro hnil
      have := scan_final_lt buf hb
      have hlen := congrArg List.length hnil
      simp [List.length_drop] at hlen
      omega

/-- The trailing `filter((f) => f.length > 0)` of `parseJpegFrames`
removes nothing: every assembled frame already has positive length. -/
theorem parseJpegFrames_eq_pre (buf : List Byte) :
    parseJpegFrames buf = parseJpegFramesPre buf := by
  unfold parseJpegFrames
  rw [List.filter_eq_self]
  intro f hf
  have := parseJpegFramesPre_ne_nil buf f hf
  simpa [List.length_pos] using this

/-- The demultiplexer returns the empty frame list exactly on the empty
input buffer. -/
theorem parseJpegFrames_eq_nil_iff (buf : List Byte) :
    parseJpegFrames buf = [] ↔ buf = [] := by
  rw [parseJpegFrames_eq_pre]
  constructor
  · intro hnil
    by_contra hb
    unfold parseJpegFramesPre at hnil
    rw [if_pos (scan_final_lt buf hb)] at hnil
    exact List.append_ne_nil_of_right_ne_nil _ (by simp) hnil
  · intro hb
    subst hb
    rfl

/-- On a buffer containing no SOI marker at all, the demultiplexer
returns the whole (non-empty) buffer as a single frame. -/
theorem parseJpegFrames_no_marker (buf : List Byte) (hb : buf ≠ [])
    (hm : ∀ i, ¬ soiAt buf i) : parseJpegFrames buf = [buf] := by
  have hpos : soiPositions buf = [] := by
    rw [List.eq_nil_iff_forall_not_mem]
    intro i hi
    exact hm i ((mem_soiPositions buf i).mp hi)
  rw [parseJpegFrames_eq_pre]
  unfold parseJpegFramesPre
  rw [hpos]
  simp [List.length_pos.mpr hb]

/-- Whenever the input contains at least one SOI marker, every frame the
demultiplexer returns begins with the 2-byte SOI marker. -/
theorem parseJpegFrames_soi (buf : List Byte) {i : Nat} (hi : soiAt buf i) :
    ∀ f ∈ parseJpegFrames buf, startsWithSOI f := by
  rw [parseJpegFrames_eq_pre]
  intro f hf
  have hmem : i ∈ soiPositions buf := (mem_soiPositions buf i).mpr hi
  have hne : soiPositions buf ≠ [] := fun h => by simp [h] at hmem
  have hb : buf ≠ [] := by
    intro h; subst h
    simp [soiPositions] at hmem
  have hscan := scan_foldl_soi buf (soiPositions buf) (0, [])
    (fun p hp => (mem_soiPositions buf p).mp hp) (Or.inl rfl)
    (by intro f hf; simp at hf)
  unfold parseJpegFramesPre at hf
  rw [if_pos (scan_final_lt buf hb)] at hf
  rcases List.mem_append.mp hf with h | h
  · exact hscan.2 f h
  · have hfe : f = buf.drop ((soiPositions buf).foldl (scanStep buf) (0, [])).1 :=
      List.mem_singleton.mp h
    -- the final `currentFrameStart` is the last marker position
    have hlast : ((soiPositions buf).foldl (scanStep buf) (0, [])).1 ∈ soiPositions buf := by
      rw [scan_foldl_fst]
      cases hl : (soiPositions buf).getLast? with
      | none => exact absurd (List.getLast?_eq_none_iff.mp hl) hne
      | some p => simpa [Option.getD] using List.mem_of_mem_getLast? hl
    have hsoi : soiAt buf ((soiPositions buf).foldl (scanStep buf) (0, [])).1 :=
      (mem_soiPositions buf _).mp hlast
    rcases (soiAt_iff buf _).mp hsoi with ⟨hff, hd8⟩
    subst hfe
    exact ⟨by rw [List.get?_drop]; simpa using hff,
           by rw [List.get?_drop]; simpa using hd8⟩

/-- Inserting adds exactly one entry. -/
theorem insertByTs_length {α : Type} (p : Nat × α) (l : List (Nat × α)) :
    (insertByTs p l).length = l.length + 1 := by
  induction l with
  | nil => rfl
  | cons q rest ih =>
      unfold insertByTs
      by_cases h : p.1 < q.1
      · simp [h]
      · simp [h, ih]

/-- Inserting is a permutation of consing. -/
theorem insertByTs_perm {α : Type} (p : Nat × α) (l : List (Nat × α)) :
    (insertByTs p l).Perm (p :: l) := by
  induction l with
  | nil => exact List.Perm.refl _
  | cons q rest ih =>
      unfold insertByTs
      by_cases h : p.1 < q.1
      · simp [h]
      · rw [if_neg h]
        exact (ih.cons q).trans (List.Perm.swap p q rest)

/-- The sort permutes its input. -/
theorem sortByTs_perm {α : Type} (l : List (Nat × α)) : (sortByTs l).Perm l := by
  have key : ∀ (l acc : List (Nat × α)),
      (l.foldl (fun acc p => insertByTs p acc) acc).Perm (acc ++ l) := by
    intro l
    induction l with
    | nil => simp [List.Perm.refl]
    | cons p rest ih =>
        intro acc
        rw [List.foldl_cons]
        refine (ih (insertByTs p acc)).trans ?_
        refine (List.Perm.append_right rest (insertByTs_perm p acc)).trans ?_
        exact List.perm_middle.symm
  simpa using key l []

/-- Inserting into a timestamp-sorted list keeps it sorted. -/
theorem insertByTs_pairwise {α : Type} (p : Nat × α) (l : List (Nat × α))
    (h : l.Pairwise (fun a b => a.1 ≤ b.1)) :
    (insertByTs p l).Pairwise (fun a b => a.1 ≤ b.1) := by
  induction l with
  | nil => simp [insertByTs]
  | cons q rest ih =>
      rcases List.pairwise_cons.mp h with ⟨hq, hrest⟩
      unfold insertByTs
      by_cases hlt : p.1 < q.1
      · rw [if_pos hlt]
        refine List.pairwise_cons.mpr ⟨?_, h⟩
        intro r hr
        rcases List.mem_cons.mp hr with rfl | hr
        · omega
        · have := hq r hr; omega
      · rw [if_neg hlt]
        refine List.pairwise_cons.mpr ⟨?_, ih hrest⟩
        intro r hr
        have hr' : r ∈ p :: rest := (insertByTs_perm p rest).mem_iff.mp hr
        rcases List.mem_cons.mp hr' with rfl | hr'
        · omega
        · exact hq r hr'

/-- The sort's output is sorted by (weakly) ascending timestamp. -/
theorem sortByTs_pairwise {α : Type} (l : List (Nat × α)) :
    (sortByTs l).Pairwise (fun a b => a.1 ≤ b.1) := by
  have key : ∀ (l acc : List (Nat × α)),
      acc.Pairwise (fun a b => a.1 ≤ b.1) →
      (l.foldl (fun acc p => insertByTs p acc) acc).Pairwise (fun a b => a.1 ≤ b.1) := by
    intro l
    induction l with
    | nil => exact fun acc h => h
    | cons p rest ih =>
        intro acc hacc
        rw [List.foldl_cons]
        exact ih _ (insertByTs_pairwise p acc hacc)
  exact key l [] (by simp)

/-- `Map.set` never changes the key sequence when the key is present, and
appends the key when it is not; in particular it preserves key
distinctness. -/
theorem jsMapSet_keys_nodup {α : Type} (m : List (Nat × α)) (k : Nat) (v : α)
    (h : (m.map Prod.fst).Nodup) : ((jsMapSet m k v).map Prod.fst).Nodup := by
  unfold jsMapSet
  by_cases hc : m.any (fun p => p.1 == k) = true
  · rw [if_pos hc]
    have : (m.map (fun p => if p.1 == k then (k, v) else p)).map Prod.fst = m.map Prod.fst := by
      rw [List.map_map]
      refine List.map_congr_left ?_
      intro p _
      by_cases hk : p.1 = k
      · simp [hk]
      · simp [hk]
    rw [this]
    exact h
  · rw [if_neg hc]
    rw [List.map_append]
    have hnotin : k ∉ m.map Prod.fst := by
      intro hk
      rcases List.mem_map.mp hk with ⟨p, hp, hpk⟩
      rw [List.any_eq_true] at hc
      exact hc ⟨p, hp, by simp [hpk]⟩
    simp [List.nodup_append, h, hnotin]

/-- The keys of the reconciled timestamp→frame map are distinct. -/
theorem reconcileFrames_keys_nodup {α : Type} (tss : List Nat) (frames : List α) :
    ((reconcileFrames tss frames).map Prod.fst).Nodup := by
  have key : ∀ (l m : List (Nat × α)), (m.map Prod.fst).Nodup →
      (((l.foldl (fun m p => jsMapSet m p.1 p.2) m)).map Prod.fst).Nodup := by
    intro l
    induction l with
    | nil => exact fun m h => h
    | cons p rest ih =>
        intro m hm
        rw [List.foldl_cons]
        exact ih _ (jsMapSet_keys_nodup m p.1 p.2 hm)
  exact key _ [] (by simp)

/-- When incoming keys are fresh and distinct, the `Map.set` fold is just
list append: the map is the pair list itself. -/
theorem foldl_jsMapSet_of_nodup {α : Type} (l m : List (Nat × α))
    (hdisj : ∀ k ∈ l.map Prod.fst, k ∉ m.map Prod.fst)
    (hnodup : (l.map Prod.fst).Nodup) :
    l.foldl (fun m p => jsMapSet m p.1 p.2) m = m ++ l := by
  induction l generalizing m with
  | nil => simp
  | cons p rest ih =>
      rw [List.foldl_cons]
      have hfresh : p.1 ∉ m.map Prod.fst := hdisj p.1 (by simp)
      have hnodup' := hnodup
      rw [List.map_cons, List.nodup_cons] at hnodup'
      have hany : m.any (fun q => q.1 == p.1) = false := by
        rw [List.any_eq_false]
        intro q hq
        simp only [beq_iff_eq]
        intro hqk
        exact hfresh (List.mem_map.mpr ⟨q, hq, hqk⟩)
      have hset : jsMapSet m p.1 p.2 = m ++ [p] := by
        unfold jsMapSet
        rw [if_neg (by simp [hany])]
      rw [hset, ih (m ++ [p]) ?_ hnodup'.2]
      · simp
      · intro k hk
        rw [List.map_append]
        intro hmem
        rcases List.mem_append.mp hmem with h | h
        · exact hdisj k (by rw [List.map_cons]; exact List.mem_cons_of_mem _ hk) h
        · simp only [List.map_cons, List.map_nil, List.mem_singleton] at h
          exact hnodup'.1 (h ▸ hk)

/-- The key sequence of a positional zip is a sublist of the keys. -/
theorem map_fst_zip_sublist {α : Type} (tss : List Nat) (frames : List α) :
    List.Sublist ((tss.zip frames).map Prod.fst) tss := by
  induction tss generalizing frames with
  | nil => simp
  | cons t ts ih =>
      cases frames with
      | nil => simp
      | cons f fs =>
          rw [List.zip_cons_cons, List.map_cons]
          exact List.Sublist.cons₂ t (ih fs)

/-- With distinct requested timestamps, the reconciled map is exactly the
positional zip of timestamps with frames. -/
theorem reconcileFrames_of_nodup {α : Type} (tss : List Nat) (frames : List α)
    (h : tss.Nodup) : reconcileFrames tss frames = tss.zip frames := by
  unfold reconcileFrames
  rw [foldl_jsMapSet_of_nodup]
  · simp
  · simp
  · exact h.sublist (map_fst_zip_sublist tss frames)

/-- `Math.round` of a value ≥ 0 is ≥ 0. -/
theorem jsRound_nonneg (q : ℚ) (h : 0 ≤ q) : 0 ≤ jsRound q :=
  Int.le_floor.mpr (by push_cast; linarith)

/-- `Math.round` of a value ≤ 255 is ≤ 255. -/
theorem jsRound_le (q : ℚ) (h : q ≤ 255) : jsRound q ≤ 255 := by
  have hlt : jsRound q < 256 := Int.floor_lt.mpr (by push_cast; linarith)
  omega

/-- `Math.round` is the identity on whole numbers. -/
theorem jsRound_natCast (n : Nat) : jsRound (n : ℚ) = n := by
  unfold jsRound
  rw [Int.floor_eq_iff]
  constructor
  · push_cast; linarith
  · push_cast; linarith

/-- `toString(16)` of a non-negative integer never renders a sign. -/
theorem intToHexStr_natCast (n : Nat) :
    intToHexStr (n : ℤ) = String.mk (natHexAux (n + 1) n) := by
  unfold intToHexStr
  rw [if_neg (by omega)]
  simp

set_option maxRecDepth 4096 in
/-- For every channel value in `0..255`, the padded hex rendering —
after the trailing `toUpperCase` — is exactly two uppercase hex digits. -/
theorem toHexPad_ok : ∀ n : Nat, n < 256 →
    ((toHexPad (n : ℤ)).data.map Char.toUpper).length = 2 ∧
    ∀ c ∈ (toHexPad (n : ℤ)).data.map Char.toUpper, c ∈ upperHexDigits := by
  decide

/-- The code's per-timestamp term equals the spec's range test. -/
theorem selectTermOfMs_eq_spec (ms : Nat) : specRangeTest ms = selectTermOfMs ms := by
  unfold specRangeTest selectTermOfMs ratToFixed3
  have hlo : ((ms : ℚ) / 1000 - 1 / 100) * 1000 = (((ms : Int) - 10 : Int) : ℚ) := by
    push_cast; ring
  have hhi : ((ms : ℚ) / 1000 + 1 / 100) * 1000 = (((ms : Int) + 10 : Int) : ℚ) := by
    push_cast; ring
  rw [hlo, hhi, round_intCast, round_intCast]

/-- Branch equation: the multi-timestamp path of `extractMultipleFrames`. -/
theorem extractMultipleFrames_cons₂ (dec : Nat → FrameBuf) (stream : List Byte)
    (t1 t2 : Nat) (rest : List Nat) :
    extractMultipleFrames dec stream (t1 :: t2 :: rest) =
      (if (parseJpegFrames stream).length = 0
       then Except.error "FFmpeg returned no frames"
       else Except.ok (reconcileFrames (t1 :: t2 :: rest) (parseJpegFrames stream), 1)) := rfl

/-- C1.  The spec claims `result[i].timestamp == input[i]` for every
successful batch call, even for non-monotonic input such as
`[5000, 1000, 3000]`.  Evaluating the code on exactly that input (with a
stream that demultiplexes into three frames) returns the results sorted
by ascending timestamp — `[1000, 3000, 5000]` — not in input order:
the trailing `results.sort((a, b) => a.timestamp - b.timestamp)`
contradicts the claimed order preservation. -/
theorem claim1_order_preservation :
    extractColorsFromFrames exColor exDecode exStream3 [5000, 1000, 3000] =
      Except.ok [(1000, "2"), (3000, "3"), (5000, "1")] ∧
    ([(1000, "2"), (3000, "3"), (5000, "1")] : List (Nat × String)).map Prod.fst ≠
      [5000, 1000, 3000] := by
  constructor
  · rfl
  · decide

/-- C2, counterexample.  Three timestamps are requested but the stream
demultiplexes into only two frames; the spec claims the call must then
fail (with `PartialExtractionError`).  The code instead succeeds and
returns only the two positionally matched results. -/
theorem claim2_undercount_counterexample :
    (parseJpegFrames exStream2).length = 2 ∧
    extractColorsFromFrames exColor exDecode exStream2 [1000, 2000, 3000] =
      Except.ok [(1000, "2"), (2000, "3")] ∧
    ([(1000, "2"), (2000, "3")] : List (Nat × String)).length ≠ 3 := by
  refine ⟨rfl, rfl, by decide⟩

/-- C2, amended.  When the demultiplexer produces fewer frames than the
`N ≥ 2` distinct requested timestamps (but at least one), the call
succeeds — no `PartialExtractionError` exists — and returns exactly one
result per positionally matched timestamp: `min(produced, N) = produced`
results. -/
theorem claim2_undercount_amended (color : FrameBuf → String) (dec : Nat → FrameBuf)
    (stream : List Byte) (t1 t2 : Nat) (rest : List Nat)
    (hnd : (t1 :: t2 :: rest).Nodup)
    (hne : parseJpegFrames stream ≠ [])
    (hle : (parseJpegFrames stream).length ≤ (t1 :: t2 :: rest).length) :
    extractColorsFromFrames color dec stream (t1 :: t2 :: rest) =
      Except.ok (assembleResults color (t1 :: t2 :: rest) (parseJpegFrames stream)) ∧
    (assembleResults color (t1 :: t2 :: rest) (parseJpegFrames stream)).length =
      (parseJpegFrames stream).length := by
  have hlen0 : ¬ (parseJpegFrames stream).length = 0 := by
    simpa [List.length_eq_zero] using hne
  constructor
  · unfold extractColorsFromFrames
    rw [extractMultipleFrames_cons₂, if_neg hlen0]
    rfl
  · unfold assembleResults colorAndSort
    rw [reconcileFrames_of_nodup _ _ hnd]
    rw [(sortByTs_perm _).length_eq, List.length_map, List.length_zip]
    exact min_eq_right hle

/-- Witness for C2's amended claim at a concrete undercount input. -/
theorem claim2_undercount_amended_witness :
    extractColorsFromFrames exColor exDecode exStream2 [1000, 2000, 3000] =
      Except.ok (assembleResults exColor [1000, 2000, 3000] (parseJpegFrames exStream2)) ∧
    (assembleResults exColor [1000, 2000, 3000] (parseJpegFrames exStream2)).length =
      (parseJpegFrames exStream2).length :=
  claim2_undercount_amended exColor exDecode exStream2 1000 2000 [3000]
    (by decide) (by decide) (by decide)

/-- C3.  The spec claims concatenating `K` well-formed JPEG buffers and
demultiplexing returns exactly `K` byte-identical buffers.  The code's
guard `currentFrameStart > 0` skips the frame that starts at offset 0,
so the first buffer is dropped whenever `K ≥ 2`: two buffers come back
as one, three as two. -/
theorem claim3_roundtrip_code_result :
    parseJpegFrames ([0xff, 0xd8, 0xaa] ++ [0xff, 0xd8, 0xbb]) =
      [[0xff, 0xd8, 0xbb]] ∧
    parseJpegFrames ([0xff, 0xd8, 0xaa] ++ ([0xff, 0xd8, 0xbb] ++ [0xff, 0xd8, 0xcc])) =
      [[0xff, 0xd8, 0xbb], [0xff, 0xd8, 0xcc]] ∧
    parseJpegFrames [0xff, 0xd8, 0xaa] = [[0xff, 0xd8, 0xaa]] := by
  refine ⟨by decide, by decide, by decide⟩

/-- C4, counterexample.  The spec claims the duplicate-bearing request
`[1000, 1000, 2000]` yields three results.  The code keys frames by
timestamp in a `Map`, so the second `set(1000, …)` overwrites the first
and only two results come back. -/
theorem claim4_duplicates_counterexample :
    extractColorsFromFrames exColor exDecode exStream3 [1000, 1000, 2000] =
      Except.ok [(1000, "2"), (2000, "3")] ∧
    ([(1000, "2"), (2000, "3")] : List (Nat × String)).length ≠ 3 := by
  refine ⟨rfl, by decide⟩

/-- C4, amended.  Duplicate requested timestamps ARE collapsed by the
timestamp-keyed frame map (the last positional assignment wins): for
`[1000, 1000, 2000]` with three produced frames the call returns two
results, the `1000` entry carrying the color of the SECOND produced
frame and the `2000` entry that of the third. -/
theorem claim4_duplicates_amended {α : Type} (color : α → String) (f0 f1 f2 : α)
    (c : FrameBuf → String) :
    assembleResults color [1000, 1000, 2000] [f0, f1, f2] =
      [(1000, color f1), (2000, color f2)] ∧
    extractColorsFromFrames c exDecode exStream3 [1000, 1000, 2000] =
      Except.ok [(1000, c [0xff, 0xd8, 0x02]), (2000, c [0xff, 0xd8, 0x03])] := by
  exact ⟨rfl, rfl⟩

/-- Witness for C4's amended claim at concrete frames and color
function. -/
theorem claim4_duplicates_amended_witness :
    assembleResults exColor [1000, 1000, 2000]
        [[0xff, 0xd8, 0x01], [0xff, 0xd8, 0x02], [0xff, 0xd8, 0x03]] =
      [(1000, exColor [0xff, 0xd8, 0x02]), (2000, exColor [0xff, 0xd8, 0x03])] ∧
    extractColorsFromFrames exColor exDecode exStream3 [1000, 1000, 2000] =
      Except.ok [(1000, exColor [0xff, 0xd8, 0x02]), (2000, exColor [0xff, 0xd8, 0x03])] :=
  claim4_duplicates_amended exColor [0xff, 0xd8, 0x01] [0xff, 0xd8, 0x02]
    [0xff, 0xd8, 0x03] exColor

/-- C5, counterexample.  The spec claims a non-empty decoder stream with
no SOI marker must NOT count as one usable frame and the call must fail
with the no-frames error.  The code returns the whole unmatched buffer
as a single frame and the call succeeds. -/
theorem claim5_noframes_counterexample :
    parseJpegFrames [0x00] = [[0x00]] ∧
    extractColorsFromFrames exColor exDecode [0x00] [1000, 2000] =
      Except.ok [(1000, "0")] := by
  refine ⟨by decide, rfl⟩

/-- C5, amended.  On the multi-timestamp path the batch extraction fails
with the no-frames error exactly when the decoder stream is EMPTY
(demultiplexing yields zero frames only then); a non-empty stream with
no SOI marker at all is returned whole as a single usable frame. -/
theorem claim5_noframes_amended (dec : Nat → FrameBuf) (stream : List Byte)
    (t1 t2 : Nat) (rest : List Nat) :
    (parseJpegFrames stream = [] ↔ stream = []) ∧
    (extractMultipleFrames dec stream (t1 :: t2 :: rest) =
        Except.error "FFmpeg returned no frames" ↔ stream = []) ∧
    (stream ≠ [] → (∀ i, ¬ soiAt stream i) → parseJpegFrames stream = [stream]) := by
  refine ⟨parseJpegFrames_eq_nil_iff stream, ?_, parseJpegFrames_no_marker stream⟩
  rw [extractMultipleFrames_cons₂]
  by_cases h : (parseJpegFrames stream).length = 0
  · rw [if_pos h]
    have hstream : stream = [] :=
      (parseJpegFrames_eq_nil_iff stream).mp (List.length_eq_zero.mp h)
    simp [hstream]
  · rw [if_neg h]
    constructor
    · intro hcontra; exact absurd hcontra (by simp)
    · intro hs
      subst hs
      exact absurd rfl h

/-- Witness for C5's amended claim at a concrete marker-free stream. -/
theorem claim5_noframes_amended_witness :
    (parseJpegFrames [0x00] = [] ↔ ([0x00] : List Byte) = []) ∧
    (extractMultipleFrames exDecode [0x00] (1000 :: 2000 :: []) =
        Except.error "FFmpeg returned no frames" ↔ ([0x00] : List Byte) = []) ∧
    (([0x00] : List Byte) ≠ [] → (∀ i, ¬ soiAt [0x00] i) →
      parseJpegFrames [0x00] = [[0x00]]) :=
  claim5_noframes_amended exDecode [0x00] 1000 2000 []

/-- C9.  For a singleton timestamp list the batch entry bypasses the
predicate/demultiplex/reconcile path entirely: it delegates to the
dedicated single-frame path `extractFrame`, returns the one-entry map
from the timestamp to that frame, performs exactly one decoder
invocation, and its result does not depend on the batch stream at all. -/
theorem claim9_singleton_bypass (dec : Nat → FrameBuf) (s1 s2 : List Byte) (ts : Nat) :
    extractMultipleFrames dec s1 [ts] =
      Except.ok ([(ts, (extractFrame dec ts).1)], (extractFrame dec ts).2) ∧
    (extractFrame dec ts).2 = 1 ∧
    [(ts, (extractFrame dec ts).1)].length = 1 ∧
    extractMultipleFrames dec s1 [ts] = extractMultipleFrames dec s2 [ts] := by
  exact ⟨rfl, rfl, rfl, rfl⟩

/-- Witness for C9 at a concrete decoder, streams and timestamp. -/
theorem claim9_singleton_bypass_witness :
    extractMultipleFrames exDecode exStream3 [7000] =
      Except.ok ([(7000, (extractFrame exDecode 7000).1)], (extractFrame exDecode 7000).2) ∧
    (extractFrame exDecode 7000).2 = 1 ∧
    [(7000, (extractFrame exDecode 7000).1)].length = 1 ∧
    extractMultipleFrames exDecode exStream3 [7000] =
      extractMultipleFrames exDecode exStream2 [7000] :=
  claim9_singleton_bypass exDecode exStream3 exStream2 7000

/-- C10.  `parseJpegFrames` is a total function (this embedding is
structurally recursive); every buffer it returns is non-empty — indeed
the trailing empty-frame filter removes nothing —, and whenever the
input contains at least one SOI marker, every returned buffer begins
with the 2-byte SOI marker `0xFF 0xD8`. -/
theorem claim10_parse_safety (buf : List Byte) :
    (∀ f ∈ parseJpegFrames buf, f ≠ []) ∧
    parseJpegFrames buf = parseJpegFramesPre buf ∧
    ((∃ i, soiAt buf i) → ∀ f ∈ parseJpegFrames buf, startsWithSOI f) := by
  refine ⟨?_, parseJpegFrames_eq_pre buf, ?_⟩
  · intro f hf
    exact parseJpegFramesPre_ne_nil buf f ((parseJpegFrames_eq_pre buf) ▸ hf)
  · rintro ⟨i, hi⟩
    exact parseJpegFrames_soi buf hi

/-- Witness for C10 at a concrete two-marker buffer. -/
theorem claim10_parse_safety_witness :
    (∀ f ∈ parseJpegFrames exStream2, f ≠ []) ∧
    parseJpegFrames exStream2 = parseJpegFramesPre exStream2 ∧
    ((∃ i, soiAt exStream2 i) → ∀ f ∈ parseJpegFrames exStream2, startsWithSOI f) :=
  claim10_parse_safety exStream2

/-- `String.append` acts as list append on the underlying characters. -/
theorem string_data_append (s t : String) : (s ++ t).data = s.data ++ t.data := rfl

/-- Assembling three in-range channels always yields `#` + six uppercase
hex digits. -/
theorem validHex_of_channels (x y z : ℤ)
    (hx0 : 0 ≤ x) (hx1 : x ≤ 255) (hy0 : 0 ≤ y) (hy1 : y ≤ 255)
    (hz0 : 0 ≤ z) (hz1 : z ≤ 255) :
    validHexString (jsToUpper ("#" ++ toHexPad x ++ toHexPad y ++ toHexPad z)) := by
  obtain ⟨nx, rfl⟩ : ∃ n : Nat, x = (n : ℤ) := ⟨x.toNat, (Int.toNat_of_nonneg hx0).symm⟩
  obtain ⟨ny, rfl⟩ : ∃ n : Nat, y = (n : ℤ) := ⟨y.toNat, (Int.toNat_of_nonneg hy0).symm⟩
  obtain ⟨nz, rfl⟩ : ∃ n : Nat, z = (n : ℤ) := ⟨z.toNat, (Int.toNat_of_nonneg hz0).symm⟩
  have hnx : nx < 256 := by
    have h256 : (nx : ℤ) < 256 := by linarith
    exact_mod_cast h256
  have hny : ny < 256 := by
    have h256 : (ny : ℤ) < 256 := by linarith
    exact_mod_cast h256
  have hnz : nz < 256 := by
    have h256 : (nz : ℤ) < 256 := by linarith
    exact_mod_cast h256
  obtain ⟨hlx, hmx⟩ := toHexPad_ok nx hnx
  obtain ⟨hly, hmy⟩ := toHexPad_ok ny hny
  obtain ⟨hlz, hmz⟩ := toHexPad_ok nz hnz
  have hsharp : ("#" : String).data.map Char.toUpper = ['#'] := by decide
  have hdata : (jsToUpper ("#" ++ toHexPad (nx : ℤ) ++ toHexPad (ny : ℤ) ++
        toHexPad (nz : ℤ))).data =
      '#' :: ((toHexPad (nx : ℤ)).data.map Char.toUpper ++
        ((toHexPad (ny : ℤ)).data.map Char.toUpper ++
          (toHexPad (nz : ℤ)).data.map Char.toUpper)) := by
    show ("#" ++ toHexPad (nx : ℤ) ++ toHexPad (ny : ℤ) ++
        toHexPad (nz : ℤ)).data.map Char.toUpper = _
    rw [string_data_append, string_data_append, string_data_append,
        List.map_append, List.map_append, List.map_append,
        List.append_assoc, List.append_assoc, hsharp]
    rfl
  unfold validHexString
  rw [hdata]
  refine ⟨?_, rfl, ?_⟩
  · rw [List.length_cons, List.length_append, List.length_append, hlx, hly, hlz]
  · intro c hc
    rw [List.drop_one, List.tail_cons] at hc
    rcases List.mem_append.mp hc with h | h
    · exact hmx c h
    · rcases List.mem_append.mp h with h' | h'
      · exact hmy c h'
      · exact hmz c h'

/-- `rgbToHex` on whole-number channels, with the rounding computed
away. -/
theorem rgbToHex_whole (r g b : Nat) :
    rgbToHex (r : ℚ) (g : ℚ) (b : ℚ) =
      jsToUpper ("#" ++ toHexPad (r : ℤ) ++ toHexPad (g : ℤ) ++ toHexPad (b : ℤ)) := by
  unfold rgbToHex toHexChannel
  rw [jsRound_natCast, jsRound_natCast, jsRound_natCast]

/-- C7.  For all channel values in `[0, 255]`, `rgbToHex` rounds each
channel, renders it as a zero-padded 2-digit hexadecimal number,
concatenates in R,G,B order behind `#` and uppercases: the output is
always `#` followed by exactly six uppercase hex digits, and the three
exactness examples hold. -/
theorem claim7_rgb_to_hex (r g b : ℚ)
    (hr0 : 0 ≤ r) (hr1 : r ≤ 255) (hg0 : 0 ≤ g) (hg1 : g ≤ 255)
    (hb0 : 0 ≤ b) (hb1 : b ≤ 255) :
    validHexString (rgbToHex r g b) ∧
    rgbToHex 255 0 128 = "#FF0080" ∧
    rgbToHex 0 0 0 = "#000000" ∧
    rgbToHex 255 255 255 = "#FFFFFF" := by
  refine ⟨?_, ?_, ?_, ?_⟩
  · exact validHex_of_channels (jsRound r) (jsRound g) (jsRound b)
      (jsRound_nonneg r hr0) (jsRound_le r hr1)
      (jsRound_nonneg g hg0) (jsRound_le g hg1)
      (jsRound_nonneg b hb0) (jsRound_le b hb1)
  · have e : rgbToHex 255 0 128 = rgbToHex ((255 : Nat) : ℚ) ((0 : Nat) : ℚ) ((128 : Nat) : ℚ) := by
      norm_num
    rw [e, rgbToHex_whole]
    decide
  · have e : rgbToHex 0 0 0 = rgbToHex ((0 : Nat) : ℚ) ((0 : Nat) : ℚ) ((0 : Nat) : ℚ) := by
      norm_num
    rw [e, rgbToHex_whole]
    decide
  · have e : rgbToHex 255 255 255 =
        rgbToHex ((255 : Nat) : ℚ) ((255 : Nat) : ℚ) ((255 : Nat) : ℚ) := by
      norm_num
    rw [e, rgbToHex_whole]
    decide

/-- Witness for C7 at channel values `(255, 0, 128)`. -/
theorem claim7_rgb_to_hex_witness :
    validHexString (rgbToHex 255 0 128) ∧
    rgbToHex 255 0 128 = "#FF0080" ∧
    rgbToHex 0 0 0 = "#000000" ∧
    rgbToHex 255 255 255 = "#FFFFFF" :=
  claim7_rgb_to_hex 255 0 128 (by norm_num) (by norm_num) (by norm_num)
    (by norm_num) (by norm_num) (by norm_num)

/-- C6.  `extractDominantColor` returns the color of the first present
swatch in the fixed priority order Vibrant, Muted, DarkVibrant,
DarkMuted, LightVibrant, LightMuted; it fails with the no-swatch error
if and only if all six categories are absent; and a palette holding only
Muted and LightVibrant selects Muted. -/
theorem claim6_dominant_swatch (p : Palette) :
    (∀ sw, firstPresentSwatch p = some sw →
      extractDominantColor p = Except.ok (rgbToHex sw.red sw.green sw.blue)) ∧
    (extractDominantColor p =
        Except.error "Failed to extract color: No color swatch found in palette" ↔
      p.Vibrant = none ∧ p.Muted = none ∧ p.DarkVibrant = none ∧
        p.DarkMuted = none ∧ p.LightVibrant = none ∧ p.LightMuted = none) ∧
    (∀ m lv : Swatch,
      extractDominantColor ⟨none, some m, none, none, some lv, none⟩ =
        Except.ok (rgbToHex m.red m.green m.blue)) := by
  obtain ⟨v, mu, dv, dm, lv, lm⟩ := p
  refine ⟨?_, ?_, fun m l => rfl⟩
  · intro sw hsw
    cases v <;> cases mu <;> cases dv <;> cases dm <;> cases lv <;> cases lm <;>
      simp_all [firstPresentSwatch, extractDominantColor, jsOr, List.findSome?]
  · cases v <;> cases mu <;> cases dv <;> cases dm <;> cases lv <;> cases lm <;>
      simp [extractDominantColor, jsOr]

/-- Witness for C6: the Muted-and-LightVibrant palette selects Muted. -/
theorem claim6_dominant_swatch_witness :
    extractDominantColor ⟨none, some ⟨1, 2, 3, 4⟩, none, none, some ⟨9, 9, 9, 9⟩, none⟩ =
      Except.ok (rgbToHex 1 2 3) :=
  (claim6_dominant_swatch
    ⟨none, some ⟨1, 2, 3, 4⟩, none, none, some ⟨9, 9, 9, 9⟩, none⟩).2.2 ⟨1, 2, 3, 4⟩ ⟨9, 9, 9, 9⟩

/-- C8.  For every timestamp list of length ≥ 2, the `select` expression
handed to the decoder is the `'+'`-joined disjunction, in input order, of
one range test `(gte(t\,ts/1000 − 0.01)*lte(t\,ts/1000 + 0.01))` per
requested timestamp, bounds rendered with 3 decimal places; and the scale
filter's target width is the fixed constant 64, independent of the
timestamps. -/
theorem claim8_selection_predicate (tss : List Nat) (_hn : 2 ≤ tss.length) :
    selectExpression tss = specSelectDisjunction tss ∧
    vfFilterArg tss = "select=\x27" ++ specSelectDisjunction tss ++ "\x27," ++ scaleFilter ∧
    scaleFilter = "scale=64:-1" := by
  have h1 : selectExpression tss = specSelectDisjunction tss := by
    unfold selectExpression specSelectDisjunction
    congr 1
    exact (List.map_congr_left fun ms _ => selectTermOfMs_eq_spec ms).symm
  refine ⟨h1, ?_, rfl⟩
  unfold vfFilterArg
  rw [h1]

/-- Witness for C8 at the two-element list `[1000, 2000]`. -/
theorem claim8_selection_predicate_witness :
    selectExpression [1000, 2000] = specSelectDisjunction [1000, 2000] ∧
    vfFilterArg [1000, 2000] =
      "select=\x27" ++ specSelectDisjunction [1000, 2000] ++ "\x27," ++ scaleFilter ∧
    scaleFilter = "scale=64:-1" :=
  claim8_selection_predicate [1000, 2000] (by decide)
